import Mathlib

/-!
Verification development for the LateScan attendance application.

The definitions below are a shallow embedding of the TypeScript source:
  - the `StudentRecord` / `StudentProfile` data model (src/types.ts),
  - the inbound replication merge handler and the scan handler of the main
    App component (the Gun sync useEffect and handleScanSuccess),
  - the spreadsheet export/import mappings (src/services/excelService.ts),
  - the summarization wrapper (src/services/geminiService.ts).

JavaScript strings are modelled as Lean strings; JavaScript string
comparison (`>=` on strings, code-unit lexicographic) is modelled by
`jsLt`/`jsGe` below; the JavaScript falsy-or chain `a || b` on strings
(empty string and absent value are falsy) is modelled explicitly where it
occurs.  React state is modelled by the `Station` structure with each
event handler an explicit state-transition function.
-/

/-- src/types.ts: StudentRecord.  The `status` union type
`Late | On-Time` is modelled by the two string values used in the source. -/
structure StudentRecord where
  id : String
  studentId : String
  name : String
  «class» : String
  arrivalTime : String
  date : String
  status : String
  isVerified : Bool
deriving DecidableEq, Repr

/-- src/types.ts: StudentProfile. -/
structure StudentProfile where
  studentId : String
  name : String
  «class» : String
deriving DecidableEq, Repr

/-- App.tsx line 39: the fixed late threshold string. -/
def LATE_THRESHOLD : String := "08:30"

/-- JavaScript `<` on strings: code-unit lexicographic comparison of the
character lists (for the characters appearing in this program, code units
and code points coincide). -/
def jsLtList : List Char → List Char → Bool
  | _, [] => false
  | [], _ :: _ => true
  | a :: as, b :: bs =>
    if a < b then true
    else if b < a then false
    else jsLtList as bs

/-- JavaScript `a < b` on strings. -/
def jsLt (a b : String) : Bool := jsLtList a.data b.data

/-- JavaScript `a >= b` on strings: not (a < b). -/
def jsGe (a b : String) : Bool := ! jsLt a b

/-- ASCII whitespace, the relevant fragment of the character class removed
by JavaScript `String.prototype.trim`. -/
def jsIsWhitespace (c : Char) : Bool :=
  (c == ' ') || (c == '\t') || (c == '\n') || (c == '\r')

/-- JavaScript `s.trim()`: drop leading and trailing whitespace. -/
def jsTrim (s : String) : String :=
  ⟨((s.data.dropWhile jsIsWhitespace).reverse.dropWhile jsIsWhitespace).reverse⟩

/-- JavaScript `c.toLowerCase()` on a single character (ASCII fragment). -/
def jsLowerChar (c : Char) : Char :=
  if c.isUpper then Char.ofNat (c.toNat + 32) else c

/-- JavaScript `s.toLowerCase()` (ASCII fragment). -/
def jsToLowerCase (s : String) : String :=
  ⟨s.data.map jsLowerChar⟩

/-- Zero padding to two digits, as produced by the 2-digit
`toLocaleTimeString` options. -/
def pad2 (n : Nat) : String := if n < 10 then "0" ++ Nat.repr n else Nat.repr n

/-- The time string handed to the classifier:
`toLocaleTimeString` with `hour12: false, hour: 2-digit, minute: 2-digit`
renders hour and minute only; the seconds component of the wall clock is
dropped by the format options (hence the unused third argument). -/
def formatTimeOfDay (h m _s : Nat) : String := pad2 h ++ ":" ++ pad2 m

/-- The comparator of the inbound merge handler sorts descending by
`arrivalTime` (App.tsx lines 90-93); modelled as insertion into a list kept
in descending order. -/
def insertByArrival (r : StudentRecord) : List StudentRecord → List StudentRecord
  | [] => [r]
  | x :: xs =>
    if jsGe r.arrivalTime x.arrivalTime then r :: x :: xs
    else x :: insertByArrival r xs

/-- The `.sort` call of the inbound merge handler. -/
def sortByArrivalDesc (l : List StudentRecord) : List StudentRecord :=
  l.foldr insertByArrival []

/-- App.tsx lines 79-95: the inbound merge step of the Gun sync handler.
A delivered payload is `none` for a null datum; a datum whose `id` is the
empty string models a payload whose `id` field is missing or falsy
(`if (!data || !data.id) return`).  An already-present `id` is a no-op;
otherwise the record is prepended and the list re-sorted. -/
def mergeRecord (prev : List StudentRecord) (data : Option StudentRecord) :
    List StudentRecord :=
  match data with
  | none => prev
  | some d =>
    if d.id = "" then prev
    else if prev.any (fun r => r.id = d.id) then prev
    else sortByArrivalDesc (d :: prev)

/-- Folding the inbound merge step over a delivery sequence. -/
def applyInbound (msgs : List (Option StudentRecord))
    (init : List StudentRecord) : List StudentRecord :=
  msgs.foldl mergeRecord init

/-- Some record in `l` carries the id `i`. -/
def HasId (l : List StudentRecord) (i : String) : Prop :=
  ∃ r ∈ l, r.id = i

/-- App.tsx handleScanSuccess lines 160-174: the pure record construction
(roster lookup, classification against `LATE_THRESHOLD` by JavaScript
string comparison, sentinel fallbacks through the falsy-or chains
`studentProfile?.name || "Unregistered Student"` and
`studentProfile?.class || "N/A"`, id derivation from the millisecond
timestamp and scanned identifier). -/
def mkScanRecord (roster : List StudentProfile) (scannedId timeString dateString : String)
    (nowMs : Nat) : StudentRecord :=
  let studentProfile := roster.find? (fun s => s.studentId = scannedId)
  { id := Nat.repr nowMs ++ "-" ++ scannedId
    studentId := scannedId
    name := match studentProfile with
      | some p => if p.name = "" then "Unregistered Student" else p.name
      | none => "Unregistered Student"
    «class» := match studentProfile with
      | some p => if p.«class» = "" then "N/A" else p.«class»
      | none => "N/A"
    arrivalTime := timeString
    date := dateString
    status := if jsGe timeString LATE_THRESHOLD then "Late" else "On-Time"
    isVerified := studentProfile.isSome }

/-- App.tsx lines 179-182: the optimistic append,
`if (prev.some(r => r.id === resultRecord.id)) return prev;
 return [resultRecord, ...prev];`. -/
def appendIfNew (prev : List StudentRecord) (r : StudentRecord) :
    List StudentRecord :=
  if prev.any (fun q => q.id = r.id) then prev else r :: prev

/-- React component state relevant to the claims: the maintained record
list, the active room code, the `attendance_records` localStorage entry
(`none` when the key is absent), the stored room code, the multiset of
records this station has published to its room (`records.get(id).put`),
and the transient last-scanned display. -/
structure Station where
  records : List StudentRecord
  syncCode : String
  cachedRecords : Option (List StudentRecord)
  storedSyncCode : String
  published : List StudentRecord
  lastScanned : Option StudentRecord
deriving DecidableEq, Repr

/-- App.tsx handleScanSuccess lines 160-198, as a transition on `Station`:
only a `Late` classification touches the record list, the cache and the
room.  The localStorage backup effect (lines 120-125) re-runs only when
the `records` state actually changes and only outside sync mode; it is
folded into the transition. -/
def handleScanSuccess (st : Station) (roster : List StudentProfile)
    (scannedId timeString dateString : String) (nowMs : Nat) : Station :=
  let resultRecord := mkScanRecord roster scannedId timeString dateString nowMs
  if resultRecord.status = "Late" then
    let records1 := appendIfNew st.records resultRecord
    let published1 :=
      if st.syncCode ≠ "" then st.published ++ [resultRecord] else st.published
    let cached1 :=
      if st.syncCode = "" then
        (if records1 = st.records then st.cachedRecords else some records1)
      else st.cachedRecords
    { st with records := records1, published := published1,
              cachedRecords := cached1, lastScanned := some resultRecord }
  else
    { st with lastScanned := some resultRecord }

/-- App.tsx saveSyncCode lines 205-211 together with the effects the
syncCode change re-triggers: trim the entered code and store it; a
non-empty cleaned code clears the record list so the room can repopulate
it (`if (cleanCode) setRecords([])`), and the backup effect (lines
120-125) skips its write since the code is non-empty; an empty cleaned
code (disconnect) re-runs the load effect (lines 103-113), which replaces
the record list with the cached `attendance_records` snapshot when one
exists, after which the backup effect rewrites the cache from the settled
list. -/
def saveSyncCode (st : Station) (code : String) : Station :=
  let cleanCode := jsTrim code
  if cleanCode ≠ "" then
    { st with syncCode := cleanCode, storedSyncCode := cleanCode, records := [] }
  else
    let records1 := match st.cachedRecords with
      | some l => l
      | none => st.records
    { st with syncCode := cleanCode, storedSyncCode := cleanCode,
              records := records1, cachedRecords := some records1 }

/-- App.tsx lines 103-113: on restart the record list starts empty and the
cached `attendance_records` snapshot is loaded only when no room code is
configured. -/
def restartRecords (storedSyncCode : String)
    (cachedRecords : Option (List StudentRecord)) : List StudentRecord :=
  if storedSyncCode = "" then
    match cachedRecords with
    | some l => l
    | none => []
  else []

/-- App.tsx clearRecords lines 213-219 (after confirmation), together
with the backup effect: outside sync mode the emptied list is written
back to the cache (the effect re-runs only when the list changes). -/
def clearRecords (st : Station) : Station :=
  { st with records := [], lastScanned := none,
            cachedRecords :=
              if st.syncCode = "" then
                (if ([] : List StudentRecord) = st.records then st.cachedRecords
                 else some [])
              else st.cachedRecords }

/-- One inbound delivery as a station transition: the merge step updates
the record list; the backup effect then writes the cache only outside
sync mode and only when the list changed (during an active subscription
the room code is non-empty, so the cache is untouched). -/
def stationMerge (st : Station) (data : Option StudentRecord) : Station :=
  let records1 := mergeRecord st.records data
  let cached1 :=
    if st.syncCode = "" then
      (if records1 = st.records then st.cachedRecords else some records1)
    else st.cachedRecords
  { st with records := records1, cachedRecords := cached1 }

/-- Component mount (App.tsx lines 51-63 and 103-113): state starts with
the stored room code and an empty record list, then the load effect
restores the cached snapshot exactly when no room code is stored. -/
def mountStation (storedSyncCode : String)
    (cachedRecords : Option (List StudentRecord)) : Station :=
  { records := restartRecords storedSyncCode cachedRecords
    syncCode := storedSyncCode
    cachedRecords := cachedRecords
    storedSyncCode := storedSyncCode
    published := []
    lastScanned := none }

/-! ## Spreadsheet service (src/services/excelService.ts)

A spreadsheet row, as produced by `sheet_to_json` and consumed by
`json_to_sheet`, is modelled as an association list from header string to
cell string; an absent header is an absent key. -/

/-- JavaScript property access `row[k]` on a row object. -/
def lookupRow (row : List (String × String)) (k : String) : Option String :=
  (row.find? (fun p => p.1 = k)).map (fun p => p.2)

/-- The falsy-or chain `row[k1] || row[k2] || ... || dflt`: the first key
whose value is present and non-empty wins, otherwise the default. -/
def jsChain (row : List (String × String)) : List String → String → String
  | [], dflt => dflt
  | k :: ks, dflt =>
    match lookupRow row k with
    | some v => if v = "" then jsChain row ks dflt else v
    | none => jsChain row ks dflt

/-- excelService.ts lines 41-44: the per-row header-alias mapping of
`parseRosterFile`. -/
def mkProfile (row : List (String × String)) : StudentProfile :=
  { studentId := jsChain row ["studentId", "ID", "Student ID"] ""
    name := jsChain row ["name", "Name", "Student Name"] "Unknown"
    «class» := jsChain row ["class", "Class", "grade", "Grade"] "N/A" }

/-- excelService.ts lines 41-45: map every row and drop rows whose
resolved identifier is falsy (`.filter(p => p.studentId)`). -/
def parseRosterRows (rows : List (List (String × String))) :
    List StudentProfile :=
  (rows.map mkProfile).filter (fun p => p.studentId ≠ "")

/-- excelService.ts lines 6-14: the exported row of one record. -/
def exportRow (r : StudentRecord) : List (String × String) :=
  [("Student Name", r.name), ("Student ID", r.studentId),
   ("Class", r.«class»), ("Arrival Time", r.arrivalTime),
   ("Date", r.date), ("Status", r.status),
   ("Verified", if r.isVerified then "Yes" else "No")]

/-- excelService.ts exportToExcel: the tabular artifact, one row per
record. -/
def exportRows (records : List StudentRecord) :
    List (List (String × String)) :=
  records.map exportRow

/-- Modelled from the spec: "case-insensitive header aliases" — the
row lookup the claim describes, matching the header name up to case.
(The source code of `parseRosterFile` instead matches exact header
strings; this definition exists only to compare the two.) -/
def lookupRowCI (row : List (String × String)) (k : String) : Option String :=
  (row.find? (fun p => jsToLowerCase p.1 = jsToLowerCase k)).map (fun p => p.2)

/-- Modelled from the spec: the falsy-or alias chain under
case-insensitive header matching. -/
def jsChainCI (row : List (String × String)) : List String → String → String
  | [], dflt => dflt
  | k :: ks, dflt =>
    match lookupRowCI row k with
    | some v => if v = "" then jsChainCI row ks dflt else v
    | none => jsChainCI row ks dflt

/-- Modelled from the spec: the per-row mapping with case-insensitive
header aliases, as claim C7 states it. -/
def mkProfileCI (row : List (String × String)) : StudentProfile :=
  { studentId := jsChainCI row ["studentId", "ID", "Student ID"] ""
    name := jsChainCI row ["name", "Name", "Student Name"] "Unknown"
    «class» := jsChainCI row ["class", "Class", "grade", "Grade"] "N/A" }

/-- Modelled from the spec: roster import under case-insensitive header
matching. -/
def parseRosterRowsCI (rows : List (List (String × String))) :
    List StudentProfile :=
  (rows.map mkProfileCI).filter (fun p => p.studentId ≠ "")

/-! ## Summarization service (src/services/geminiService.ts)

The external text-generation call is modelled as a function from the
prompt to either an error (a thrown exception) or a response whose
`.text` is an optional string (`none` models an absent `text` property).
-/

/-- geminiService.ts lines 9-20: the data summary and prompt built from
the record list. -/
def analyzePrompt (records : List StudentRecord) : String :=
  let dataSummary := String.intercalate ", "
    (records.map (fun r =>
      r.name ++ " (Class " ++ r.«class» ++ ") at " ++ r.arrivalTime))
  "Analyze the following list of student late arrivals at a school gate today (Threshold: 08:30 AM): "
    ++ dataSummary
    ++ " Provide a very brief 2-3 sentence summary: "
    ++ "1. Are there specific classes that are more frequent? "
    ++ "2. Is there a peak time for arrivals? "
    ++ "3. Any encouraging suggestion for the school staff to manage the 2000 student body. "
    ++ "Keep it professional and helpful."

/-- geminiService.ts analyzeLateArrivals: call the external generator on
the prompt; on a thrown error return the fixed fallback; on success return
`response.text || "No specific trends identified yet."` (absent or empty
text is falsy). -/
def analyzeLateArrivals (records : List StudentRecord)
    (generateContent : String → Except String (Option String)) : String :=
  match generateContent (analyzePrompt records) with
  | Except.error _ => "Unable to generate insights at this moment."
  | Except.ok t =>
    match t with
    | none => "No specific trends identified yet."
    | some s => if s = "" then "No specific trends identified yet." else s

/-- Record lists with pairwise-distinct `id` keys. -/
def DistinctIds (l : List StudentRecord) : Prop :=
  (l.map (fun r => r.id)).Nodup

/-- The id-distinctness invariant of a station: the maintained record
list and the cached snapshot (when present) both carry pairwise-distinct
ids.  Tracking the cache makes the invariant inductive across the
disconnect path, which reloads the cache into the record list. -/
def StationDistinct (st : Station) : Prop :=
  DistinctIds st.records ∧ ∀ l, st.cachedRecords = some l → DistinctIds l

/-! ## Concrete fixtures used by closed instances of the theorems -/

/-- A sample late record. -/
def recA : StudentRecord :=
  { id := "100-a", studentId := "a", name := "Alice", «class» := "7A",
    arrivalTime := "08:45", date := "1/2/2026", status := "Late",
    isVerified := true }

/-- A second sample late record with a distinct id. -/
def recB : StudentRecord :=
  { id := "200-b", studentId := "b", name := "Bob", «class» := "7B",
    arrivalTime := "09:10", date := "1/2/2026", status := "Late",
    isVerified := false }

/-- A sample payload whose id field is empty (falsy). -/
def recBlank : StudentRecord :=
  { id := "", studentId := "x", name := "X", «class» := "7C",
    arrivalTime := "08:50", date := "1/2/2026", status := "Late",
    isVerified := false }

/-- A sample record with an empty studentId field. -/
def recNoSid : StudentRecord :=
  { id := "1-", studentId := "", name := "Ann", «class» := "7A",
    arrivalTime := "09:00", date := "1/2/2026", status := "Late",
    isVerified := false }

/-- A sample standalone station holding one local record. -/
def stLocal : Station :=
  { records := [recA], syncCode := "", cachedRecords := some [recA],
    storedSyncCode := "", published := [], lastScanned := none }

/-- A sample empty standalone station. -/
def stEmpty : Station :=
  { records := [], syncCode := "", cachedRecords := none,
    storedSyncCode := "", published := [], lastScanned := none }

/-- A sample external generator that always throws. -/
def genFail : String → Except String (Option String) :=
  fun _ => Except.error "network unavailable"

/-- A sample external generator whose response has no text property. -/
def genNoText : String → Except String (Option String) :=
  fun _ => Except.ok none

/-- A sample external generator whose response text is the empty string. -/
def genEmptyText : String → Except String (Option String) :=
  fun _ => Except.ok (some "")

/-! ## Helper lemmas -/

theorem insertByArrival_perm (r : StudentRecord) (l : List StudentRecord) :
    (insertByArrival r l).Perm (r :: l) := by
  induction l with
  | nil => exact List.Perm.refl _
  | cons x xs ih =>
    simp only [insertByArrival]
    split
    · exact List.Perm.refl _
    · exact (ih.cons x).trans (List.Perm.swap r x xs)

theorem sortByArrivalDesc_perm (l : List StudentRecord) :
    (sortByArrivalDesc l).Perm l := by
  induction l with
  | nil => exact List.Perm.refl _
  | cons x xs ih =>
    have h : sortByArrivalDesc (x :: xs) = insertByArrival x (sortByArrivalDesc xs) := rfl
    rw [h]
    exact (insertByArrival_perm x _).trans (ih.cons x)

theorem mem_sortByArrivalDesc (r : StudentRecord) (l : List StudentRecord) :
    r ∈ sortByArrivalDesc l ↔ r ∈ l :=
  (sortByArrivalDesc_perm l).mem_iff

theorem hasId_mergeRecord (prev : List StudentRecord) (d : StudentRecord)
    (i : String) :
    HasId (mergeRecord prev (some d)) i ↔ HasId prev i ∨ (i = d.id ∧ d.id ≠ "") := by
  by_cases h0 : d.id = ""
  · simp [mergeRecord, h0, HasId]
  · by_cases hex : ∃ r ∈ prev, r.id = d.id
    · have hany : prev.any (fun r => r.id = d.id) = true := by
        simpa [List.any_eq_true] using hex
      simp only [mergeRecord, h0, if_false, hany, if_true]
      constructor
      · exact Or.inl
      · rintro (h | ⟨hi, _⟩)
        · exact h
        · obtain ⟨r, hr, hrid⟩ := hex
          exact ⟨r, hr, by rw [hrid, ← hi]⟩
    · have hany : prev.any (fun r => r.id = d.id) = false := by
        simpa [List.any_eq_false] using fun r hr he => hex ⟨r, hr, he⟩
      simp only [mergeRecord, h0, if_false, hany, Bool.false_eq_true]
      unfold HasId
      constructor
      · rintro ⟨r, hr, hrid⟩
        rcases List.mem_cons.1 ((mem_sortByArrivalDesc r _).1 hr) with h | h
        · exact Or.inr ⟨by rw [← hrid, h], h0⟩
        · exact Or.inl ⟨r, h, hrid⟩
      · rintro (⟨r, hr, hrid⟩ | ⟨hi, _⟩)
        · exact ⟨r, (mem_sortByArrivalDesc r _).2 (List.mem_cons_of_mem d hr), hrid⟩
        · exact ⟨d, (mem_sortByArrivalDesc d _).2 (List.mem_cons_self d prev), hi.symm⟩

theorem hasId_applyInbound (msgs : List (Option StudentRecord))
    (init : List StudentRecord) (i : String) :
    HasId (applyInbound msgs init) i ↔
      HasId init i ∨ ∃ d : StudentRecord, some d ∈ msgs ∧ d.id = i ∧ d.id ≠ "" := by
  induction msgs generalizing init with
  | nil => simp [applyInbound]
  | cons m ms ih =>
    have hstep : applyInbound (m :: ms) init = applyInbound ms (mergeRecord init m) := rfl
    rw [hstep, ih]
    cases m with
    | none =>
      simp only [mergeRecord, List.mem_cons]
      constructor
      · rintro (h | ⟨d, hd, hi, hne⟩)
        · exact Or.inl h
        · exact Or.inr ⟨d, Or.inr hd, hi, hne⟩
      · rintro (h | ⟨d, (hd | hd), hi, hne⟩)
        · exact Or.inl h
        · exact absurd hd (by simp)
        · exact Or.inr ⟨d, hd, hi, hne⟩
    | some d =>
      rw [hasId_mergeRecord]
      simp only [List.mem_cons, Option.some.injEq]
      constructor
      · rintro ((h | ⟨hi, hne⟩) | ⟨e, he, hei, hne⟩)
        · exact Or.inl h
        · exact Or.inr ⟨d, Or.inl rfl, hi.symm, hne⟩
        · exact Or.inr ⟨e, Or.inr he, hei, hne⟩
      · rintro (h | ⟨e, (he | he), hei, hne⟩)
        · exact Or.inl (Or.inl h)
        · subst he
          exact Or.inl (Or.inr ⟨hei.symm, hne⟩)
        · exact Or.inr ⟨e, he, hei, hne⟩

theorem mem_mergeRecord_sub (prev : List StudentRecord)
    (m : Option StudentRecord) (r : StudentRecord) :
    r ∈ mergeRecord prev m → r ∈ prev ∨ (m = some r ∧ r.id ≠ "") := by
  cases m with
  | none => exact Or.inl
  | some d =>
    by_cases h0 : d.id = ""
    · simp [mergeRecord, h0]
      exact Or.inl
    · by_cases hany : prev.any (fun q => q.id = d.id)
      · simp only [mergeRecord, h0, if_false, hany, if_true]
        exact Or.inl
      · simp only [mergeRecord, h0, if_false, Bool.not_eq_true] at hany ⊢
        rw [hany]
        simp only [Bool.false_eq_true, if_false]
        intro hr
        rcases List.mem_cons.1 ((mem_sortByArrivalDesc r _).1 hr) with h | h
        · exact Or.inr ⟨by rw [h], by rw [h]; exact h0⟩
        · exact Or.inl h

theorem mem_applyInbound_sub (msgs : List (Option StudentRecord))
    (init : List StudentRecord) (r : StudentRecord) :
    r ∈ applyInbound msgs init → r ∈ init ∨ (some r ∈ msgs ∧ r.id ≠ "") := by
  induction msgs generalizing init with
  | nil => exact fun h => Or.inl h
  | cons m ms ih =>
    intro h
    rcases ih (mergeRecord init m) h with h1 | h2
    · rcases mem_mergeRecord_sub init m r h1 with h3 | ⟨h3, h4⟩
      · exact Or.inl h3
      · exact Or.inr ⟨h3 ▸ List.mem_cons_self m ms, h4⟩
    · exact Or.inr ⟨List.mem_cons_of_mem m h2.1, h2.2⟩

theorem mem_applyInbound_nil (msgs : List (Option StudentRecord))
    (hinj : ∀ d1 d2 : StudentRecord,
      some d1 ∈ msgs → some d2 ∈ msgs → d1.id = d2.id → d1 = d2)
    (s : StudentRecord) :
    s ∈ applyInbound msgs [] ↔ (some s ∈ msgs ∧ s.id ≠ "") := by
  constructor
  · intro h
    rcases mem_applyInbound_sub msgs [] s h with h1 | h2
    · exact absurd h1 (List.not_mem_nil s)
    · exact h2
  · rintro ⟨hmem, hne⟩
    have hid : HasId (applyInbound msgs []) s.id := by
      rw [hasId_applyInbound]
      exact Or.inr ⟨s, hmem, rfl, hne⟩
    obtain ⟨q, hq, hqid⟩ := hid
    rcases mem_applyInbound_sub msgs [] q hq with h1 | ⟨h1, _⟩
    · exact absurd h1 (List.not_mem_nil q)
    · exact hinj q s h1 hmem hqid ▸ hq

theorem any_id_eq_false (l : List StudentRecord) (i : String) :
    l.any (fun q => q.id = i) = false ↔ ¬ ∃ q ∈ l, q.id = i := by
  rw [← Bool.not_eq_true, List.any_eq_true]
  simp

theorem appendIfNew_eq_of_mem (l : List StudentRecord) (r : StudentRecord)
    (h : ∃ q ∈ l, q.id = r.id) : appendIfNew l r = l := by
  have hany : l.any (fun q => q.id = r.id) = true := by
    simpa [List.any_eq_true] using h
  rw [appendIfNew, if_pos hany]

theorem appendIfNew_eq_cons (l : List StudentRecord) (r : StudentRecord)
    (h : ¬ ∃ q ∈ l, q.id = r.id) : appendIfNew l r = r :: l := by
  have hany : l.any (fun q => q.id = r.id) = false := (any_id_eq_false l r.id).2 h
  rw [appendIfNew, if_neg (by rw [hany]; exact Bool.false_ne_true)]

theorem appendIfNew_idem (l : List StudentRecord) (r : StudentRecord) :
    appendIfNew (appendIfNew l r) r = appendIfNew l r := by
  by_cases h : ∃ q ∈ l, q.id = r.id
  · rw [appendIfNew_eq_of_mem l r h, appendIfNew_eq_of_mem l r h]
  · rw [appendIfNew_eq_cons l r h,
      appendIfNew_eq_of_mem (r :: l) r ⟨r, List.mem_cons_self r l, rfl⟩]

theorem appendIfNew_distinctIds (l : List StudentRecord) (r : StudentRecord)
    (h : DistinctIds l) : DistinctIds (appendIfNew l r) := by
  by_cases hmem : ∃ q ∈ l, q.id = r.id
  · rw [appendIfNew_eq_of_mem l r hmem]; exact h
  · rw [appendIfNew_eq_cons l r hmem]
    refine List.Nodup.cons ?_ h
    simp only [List.mem_map, not_exists, not_and]
    intro q hq hqid
    exact hmem ⟨q, hq, hqid⟩

theorem mergeRecord_distinctIds (prev : List StudentRecord)
    (m : Option StudentRecord) (h : DistinctIds prev) :
    DistinctIds (mergeRecord prev m) := by
  cases m with
  | none => exact h
  | some d =>
    by_cases h0 : d.id = ""
    · simpa [mergeRecord, h0] using h
    · by_cases hany : prev.any (fun r => r.id = d.id) = true
      · simpa [mergeRecord, h0, hany] using h
      · rw [mergeRecord]
        simp only [h0, if_false, hany, Bool.false_eq_true]
        have hperm := (sortByArrivalDesc_perm (d :: prev)).map (fun r => r.id)
        rw [DistinctIds, hperm.nodup_iff]
        refine List.Nodup.cons ?_ h
        simp only [List.mem_map, not_exists, not_and]
        intro q hq hqid
        have := (any_id_eq_false prev d.id).1 (Bool.not_eq_true _ ▸ hany)
        exact this ⟨q, hq, hqid⟩

theorem stationMerge_stationDistinct (st : Station) (data : Option StudentRecord)
    (h : StationDistinct st) : StationDistinct (stationMerge st data) := by
  obtain ⟨hrec, hcache⟩ := h
  refine ⟨mergeRecord_distinctIds _ _ hrec, ?_⟩
  intro l hl
  dsimp only [stationMerge] at hl
  split at hl
  · split at hl
    · exact hcache l hl
    · exact (Option.some.inj hl) ▸ mergeRecord_distinctIds _ _ hrec
  · exact hcache l hl

theorem handleScanSuccess_stationDistinct (st : Station)
    (roster : List StudentProfile) (scannedId timeString dateString : String)
    (nowMs : Nat) (h : StationDistinct st) :
    StationDistinct (handleScanSuccess st roster scannedId timeString dateString nowMs) := by
  obtain ⟨hrec, hcache⟩ := h
  by_cases hL : (mkScanRecord roster scannedId timeString dateString nowMs).status = "Late"
  · simp only [handleScanSuccess, hL, if_true]
    refine ⟨appendIfNew_distinctIds _ _ hrec, ?_⟩
    intro l hl
    dsimp only at hl
    split at hl
    · split at hl
      · exact hcache l hl
      · exact (Option.some.inj hl) ▸ appendIfNew_distinctIds _ _ hrec
    · exact hcache l hl
  · simp only [handleScanSuccess, hL, if_false]
    exact ⟨hrec, hcache⟩

theorem clearRecords_stationDistinct (st : Station) (h : StationDistinct st) :
    StationDistinct (clearRecords st) := by
  obtain ⟨hrec, hcache⟩ := h
  refine ⟨List.nodup_nil, ?_⟩
  intro l hl
  dsimp only [clearRecords] at hl
  split at hl
  · split at hl
    · exact hcache l hl
    · exact (Option.some.inj hl) ▸ List.nodup_nil
  · exact hcache l hl

theorem saveSyncCode_stationDistinct (st : Station) (code : String)
    (h : StationDistinct st) : StationDistinct (saveSyncCode st code) := by
  obtain ⟨hrec, hcache⟩ := h
  simp only [saveSyncCode]
  by_cases hc : jsTrim code ≠ ""
  · rw [if_pos hc]
    exact ⟨List.nodup_nil, hcache⟩
  · rw [if_neg hc]
    have hr1 : DistinctIds (match st.cachedRecords with
        | some l => l
        | none => st.records) := by
      cases hcc : st.cachedRecords with
      | some l => exact hcache l hcc
      | none => exact hrec
    exact ⟨hr1, fun l hl => (Option.some.inj hl) ▸ hr1⟩

theorem mountStation_stationDistinct (stored : String)
    (cache : Option (List StudentRecord))
    (h : ∀ l, cache = some l → DistinctIds l) :
    StationDistinct (mountStation stored cache) := by
  refine ⟨?_, fun l hl => h l hl⟩
  show DistinctIds (restartRecords stored cache)
  unfold restartRecords
  split
  · cases hcc : cache with
    | some l => exact h l hcc
    | none => exact List.nodup_nil
  · exact List.nodup_nil

theorem jsChain_eq_default (row : List (String × String)) (keys : List String)
    (dflt : String)
    (h : ∀ k ∈ keys, ∀ v, lookupRow row k = some v → v = "") :
    jsChain row keys dflt = dflt := by
  induction keys with
  | nil => rfl
  | cons k ks ih =>
    rw [jsChain]
    cases hk : lookupRow row k with
    | none => exact ih fun k2 hk2 => h k2 (List.mem_cons_of_mem k hk2)
    | some v =>
      have hv : v = "" := h k (List.mem_cons_self k ks) v hk
      show (if v = "" then jsChain row ks dflt else v) = dflt
      rw [if_pos hv]
      exact ih fun k2 hk2 => h k2 (List.mem_cons_of_mem k hk2)

theorem jsChain_ne_empty (row : List (String × String)) (keys : List String)
    (dflt : String)
    (h : ∃ k ∈ keys, ∃ v, lookupRow row k = some v ∧ v ≠ "") :
    jsChain row keys dflt ≠ "" := by
  induction keys with
  | nil => exact absurd h (by simp)
  | cons k ks ih =>
    rw [jsChain]
    obtain ⟨k0, hk0, v0, hv0, hv0ne⟩ := h
    rcases List.mem_cons.1 hk0 with heq | htail
    · subst heq
      rw [hv0]
      show (if v0 = "" then jsChain row ks dflt else v0) ≠ ""
      rw [if_neg hv0ne]
      exact hv0ne
    · cases hk : lookupRow row k with
      | none => exact ih ⟨k0, htail, v0, hv0, hv0ne⟩
      | some v =>
        show (if v = "" then jsChain row ks dflt else v) ≠ ""
        by_cases hve : v = ""
        · rw [if_pos hve]
          exact ih ⟨k0, htail, v0, hv0, hv0ne⟩
        · rw [if_neg hve]
          exact hve

theorem mkProfile_exportRow (r : StudentRecord) :
    (mkProfile (exportRow r)).studentId = (if r.studentId = "" then "" else r.studentId) ∧
    (mkProfile (exportRow r)).name = (if r.name = "" then "Unknown" else r.name) :=
  ⟨rfl, rfl⟩

/-! ## The claims -/

/-- C1: Convergence — two stations subscribed to the same room that have
received the same set of publish messages, in any arrival order and with
any duplication, hold set-equal maintained record sets keyed by `id`
(identical sets of accepted ids); when distinct publish messages never
share an id (the publish path keys each event by its unique id), the
maintained sets are equal even as sets of full records. -/
theorem convergence_sameMessages (msgs1 msgs2 : List (Option StudentRecord))
    (hmem : ∀ m, m ∈ msgs1 ↔ m ∈ msgs2) :
    (∀ i, HasId (applyInbound msgs1 []) i ↔ HasId (applyInbound msgs2 []) i) ∧
    ((∀ d1 d2 : StudentRecord, some d1 ∈ msgs1 → some d2 ∈ msgs1 →
        d1.id = d2.id → d1 = d2) →
      ∀ r, r ∈ applyInbound msgs1 [] ↔ r ∈ applyInbound msgs2 []) := by
  constructor
  · intro i
    rw [hasId_applyInbound, hasId_applyInbound]
    constructor
    · rintro (h | ⟨d, hd, hi, hne⟩)
      · exact Or.inl h
      · exact Or.inr ⟨d, (hmem _).1 hd, hi, hne⟩
    · rintro (h | ⟨d, hd, hi, hne⟩)
      · exact Or.inl h
      · exact Or.inr ⟨d, (hmem _).2 hd, hi, hne⟩
  · intro hinj r
    have hinj2 : ∀ d1 d2 : StudentRecord, some d1 ∈ msgs2 → some d2 ∈ msgs2 →
        d1.id = d2.id → d1 = d2 :=
      fun d1 d2 h1 h2 => hinj d1 d2 ((hmem _).2 h1) ((hmem _).2 h2)
    rw [mem_applyInbound_nil msgs1 hinj r, mem_applyInbound_nil msgs2 hinj2 r,
      hmem]

/-- Closed instance of C1: the delivery sequences
`[recA, null, recB, recA]` and `[recB, recA, null, null]` carry the same
message set and produce id-equal (indeed equal) maintained sets. -/
theorem convergence_sameMessages_witness :
    (∀ i, HasId (applyInbound [some recA, none, some recB, some recA] []) i ↔
      HasId (applyInbound [some recB, some recA, none, none] []) i) ∧
    ((∀ d1 d2 : StudentRecord,
        some d1 ∈ [some recA, none, some recB, some recA] →
        some d2 ∈ [some recA, none, some recB, some recA] →
        d1.id = d2.id → d1 = d2) →
      ∀ r, r ∈ applyInbound [some recA, none, some recB, some recA] [] ↔
        r ∈ applyInbound [some recB, some recA, none, none] []) :=
  convergence_sameMessages _ _ (by intro m; simp [List.mem_cons]; tauto)

/-- C2: Inbound merge behavior — a null payload or one whose id is not
well-formed leaves the maintained set unchanged; a payload whose id is
already present is a no-op; applying the same payload any number of times
after the first changes nothing (idempotence); otherwise the event is
added (the new set holds exactly the new event and the old ones). -/
theorem mergeRecord_inbound_behavior (prev : List StudentRecord)
    (d : StudentRecord) :
    mergeRecord prev none = prev ∧
    (d.id = "" → mergeRecord prev (some d) = prev) ∧
    ((∃ r ∈ prev, r.id = d.id) → mergeRecord prev (some d) = prev) ∧
    mergeRecord (mergeRecord prev (some d)) (some d) = mergeRecord prev (some d) ∧
    (∀ n : Nat, applyInbound (List.replicate n (some d)) (mergeRecord prev (some d)) =
      mergeRecord prev (some d)) ∧
    (d.id ≠ "" → (¬ ∃ r ∈ prev, r.id = d.id) →
      ∀ r : StudentRecord, r ∈ mergeRecord prev (some d) ↔ (r = d ∨ r ∈ prev)) := by
  have hnone : mergeRecord prev none = prev := rfl
  have hblank : d.id = "" → mergeRecord prev (some d) = prev := by
    intro h0; simp [mergeRecord, h0]
  have hdup : (∃ r ∈ prev, r.id = d.id) → mergeRecord prev (some d) = prev := by
    intro hex
    have hany : prev.any (fun r => r.id = d.id) = true := by
      simpa [List.any_eq_true] using hex
    by_cases h0 : d.id = ""
    · exact hblank h0
    · simp [mergeRecord, h0, hany]
  have hidem : mergeRecord (mergeRecord prev (some d)) (some d) =
      mergeRecord prev (some d) := by
    by_cases h0 : d.id = ""
    · rw [hblank h0, hblank h0]
    · by_cases hex : ∃ r ∈ prev, r.id = d.id
      · rw [hdup hex, hdup hex]
      · have hany : prev.any (fun r => r.id = d.id) = false :=
          (any_id_eq_false prev d.id).2 hex
        have hstep : mergeRecord prev (some d) = sortByArrivalDesc (d :: prev) := by
          rw [mergeRecord]
          simp only [h0, if_false, hany, Bool.false_eq_true]
        rw [hstep]
        have hmem : ∃ r ∈ sortByArrivalDesc (d :: prev), r.id = d.id :=
          ⟨d, (mem_sortByArrivalDesc d _).2 (List.mem_cons_self d prev), rfl⟩
        have hany2 : (sortByArrivalDesc (d :: prev)).any (fun r => r.id = d.id) = true := by
          simpa [List.any_eq_true] using hmem
        simp [mergeRecord, h0, hany2]
  refine ⟨hnone, hblank, hdup, hidem, ?_, ?_⟩
  · intro n
    induction n with
    | zero => rfl
    | succ k ih =>
      have hstep : applyInbound (List.replicate (k + 1) (some d)) (mergeRecord prev (some d)) =
          applyInbound (List.replicate k (some d))
            (mergeRecord (mergeRecord prev (some d)) (some d)) := rfl
      rw [hstep, hidem, ih]
  · intro h0 hex r
    have hany : prev.any (fun q => q.id = d.id) = false :=
      (any_id_eq_false prev d.id).2 hex
    have hstep : mergeRecord prev (some d) = sortByArrivalDesc (d :: prev) := by
      rw [mergeRecord]
      simp only [h0, if_false, hany, Bool.false_eq_true]
    rw [hstep, mem_sortByArrivalDesc, List.mem_cons]

/-- Closed instance of C2: the blank-id payload is discarded, a duplicate
of an already-present id is a no-op, and a fresh event is accepted. -/
theorem mergeRecord_inbound_behavior_witness :
    mergeRecord [recA] (some recBlank) = [recA] ∧
    mergeRecord [recA] (some recA) = [recA] ∧
    applyInbound (List.replicate 3 (some recB)) (mergeRecord [recA] (some recB)) =
      mergeRecord [recA] (some recB) ∧
    (recB ∈ mergeRecord [recA] (some recB) ↔ (recB = recB ∨ recB ∈ [recA])) :=
  ⟨(mergeRecord_inbound_behavior [recA] recBlank).2.1 rfl,
   (mergeRecord_inbound_behavior [recA] recA).2.2.1 ⟨recA, List.mem_cons_self recA [], rfl⟩,
   (mergeRecord_inbound_behavior [recA] recB).2.2.2.2.1 3,
   (mergeRecord_inbound_behavior [recA] recB).2.2.2.2.2 (by decide) (by decide) recB⟩

/-- C3: Classification boundary — the produced record is `Late` iff the
formatted `HH:MM` string is `>=` the threshold string `08:30` under the
string comparison of the source (lexicographic, not numeric time arithmetic);
a scan in the `08:30` minute (any second, since the format drops seconds)
is `Late` and one at `08:29` is `On-Time`. -/
theorem classification_boundary (roster : List StudentProfile)
    (scannedId timeString dateString : String) (nowMs s : Nat) :
    ((mkScanRecord roster scannedId timeString dateString nowMs).status = "Late" ↔
      jsGe timeString LATE_THRESHOLD = true) ∧
    (mkScanRecord roster scannedId (formatTimeOfDay 8 30 s) dateString nowMs).status = "Late" ∧
    (mkScanRecord roster scannedId (formatTimeOfDay 8 29 s) dateString nowMs).status = "On-Time" := by
  refine ⟨?_, rfl, rfl⟩
  show (if jsGe timeString LATE_THRESHOLD then "Late" else "On-Time") = "Late" ↔
    jsGe timeString LATE_THRESHOLD = true
  by_cases h : jsGe timeString LATE_THRESHOLD = true
  · rw [if_pos h]
    simp [h]
  · rw [if_neg h]
    constructor
    · intro hc
      exact absurd hc (by decide)
    · intro hc
      exact absurd hc h

/-- C4: Data minimization — an On-Time classification leaves the
maintained record list, the persistent cache and the room publications
unchanged; and every record in the list after a scan is either an old one
or a Late-classified one. -/
theorem onTime_not_persisted (st : Station) (roster : List StudentProfile)
    (scannedId timeString dateString : String) (nowMs : Nat) :
    ((mkScanRecord roster scannedId timeString dateString nowMs).status = "On-Time" →
      (handleScanSuccess st roster scannedId timeString dateString nowMs).records = st.records ∧
      (handleScanSuccess st roster scannedId timeString dateString nowMs).cachedRecords = st.cachedRecords ∧
      (handleScanSuccess st roster scannedId timeString dateString nowMs).published = st.published) ∧
    (∀ r ∈ (handleScanSuccess st roster scannedId timeString dateString nowMs).records,
      r ∈ st.records ∨ r.status = "Late") := by
  constructor
  · intro hOT
    have hnl : ¬ (mkScanRecord roster scannedId timeString dateString nowMs).status = "Late" := by
      rw [hOT]; decide
    simp [handleScanSuccess, hnl]
  · intro r hr
    by_cases hL : (mkScanRecord roster scannedId timeString dateString nowMs).status = "Late"
    · simp only [handleScanSuccess, hL, if_true] at hr
      by_cases hex : ∃ q ∈ st.records, q.id = (mkScanRecord roster scannedId timeString dateString nowMs).id
      · rw [appendIfNew_eq_of_mem _ _ hex] at hr
        exact Or.inl hr
      · rw [appendIfNew_eq_cons _ _ hex] at hr
        rcases List.mem_cons.1 hr with heq | htl
        · exact Or.inr (by rw [heq]; exact hL)
        · exact Or.inl htl
    · simp only [handleScanSuccess, hL, if_false] at hr
      exact Or.inl hr

/-- Closed instance of C4: a scan at 08:00 classifies On-Time and leaves
the record list, cache and publications of the station untouched. -/
theorem onTime_not_persisted_witness :
    (handleScanSuccess stLocal [] "z" "08:00" "1/2/2026" 500).records = stLocal.records ∧
    (handleScanSuccess stLocal [] "z" "08:00" "1/2/2026" 500).cachedRecords = stLocal.cachedRecords ∧
    (handleScanSuccess stLocal [] "z" "08:00" "1/2/2026" 500).published = stLocal.published :=
  (onTime_not_persisted stLocal [] "z" "08:00" "1/2/2026" 500).1 rfl

/-- C5: Room switch isolation — supplying a room code whose trimmed form
is non-empty empties the maintained record list; on restart the
cached snapshot is loaded exactly when no room code is stored. -/
theorem roomSwitch_isolation (st : Station) (code stored : String)
    (cache : Option (List StudentRecord)) :
    (jsTrim code ≠ "" → (saveSyncCode st code).records = []) ∧
    (stored ≠ "" → restartRecords stored cache = []) ∧
    restartRecords "" cache = cache.getD [] := by
  refine ⟨?_, ?_, ?_⟩
  · intro h
    simp [saveSyncCode, h]
  · intro h
    simp [restartRecords, h]
  · simp only [restartRecords, if_pos rfl]
    cases cache <;> rfl

/-- Closed instance of C5: joining room `ROOM-B` from a standalone
station with one local record empties the list; a restart reloads the
cache only without a stored room code. -/
theorem roomSwitch_isolation_witness :
    (saveSyncCode stLocal "ROOM-B").records = [] ∧
    restartRecords "ROOM-B" (some [recA]) = [] ∧
    restartRecords "" (some [recA]) = (some [recA]).getD [] :=
  ⟨(roomSwitch_isolation stLocal "ROOM-B" "ROOM-B" (some [recA])).1 (by decide),
   (roomSwitch_isolation stLocal "ROOM-B" "ROOM-B" (some [recA])).2.1 (by decide),
   (roomSwitch_isolation stLocal "ROOM-B" "" (some [recA])).2.2⟩

/-- C6: Roster fallback — a scanned identifier with no roster match still
yields a record, with `isVerified = false`, name `Unregistered Student`
and class `N/A` (the classifier is total and never fails), and that
record still enters the maintained set when it classifies Late. -/
theorem roster_fallback (st : Station) (roster : List StudentProfile)
    (scannedId timeString dateString : String) (nowMs : Nat)
    (hfind : roster.find? (fun s => s.studentId = scannedId) = none) :
    (mkScanRecord roster scannedId timeString dateString nowMs).isVerified = false ∧
    (mkScanRecord roster scannedId timeString dateString nowMs).name = "Unregistered Student" ∧
    (mkScanRecord roster scannedId timeString dateString nowMs).«class» = "N/A" ∧
    ((mkScanRecord roster scannedId timeString dateString nowMs).status = "Late" →
      (¬ ∃ q ∈ st.records, q.id = (mkScanRecord roster scannedId timeString dateString nowMs).id) →
      mkScanRecord roster scannedId timeString dateString nowMs ∈
        (handleScanSuccess st roster scannedId timeString dateString nowMs).records) := by
  refine ⟨?_, ?_, ?_, ?_⟩
  · simp [mkScanRecord, hfind]
  · simp [mkScanRecord, hfind]
  · simp [mkScanRecord, hfind]
  · intro hL hex
    simp only [handleScanSuccess, hL, if_true]
    rw [appendIfNew_eq_cons _ _ hex]
    exact List.mem_cons_self _ _

/-- Closed instance of C6: an unknown identifier scanned at 09:00 (Late)
with an empty roster produces the fallback record and it is logged. -/
theorem roster_fallback_witness :
    (mkScanRecord [] "zz" "09:00" "1/2/2026" 7).isVerified = false ∧
    (mkScanRecord [] "zz" "09:00" "1/2/2026" 7).name = "Unregistered Student" ∧
    (mkScanRecord [] "zz" "09:00" "1/2/2026" 7).«class» = "N/A" ∧
    mkScanRecord [] "zz" "09:00" "1/2/2026" 7 ∈
      (handleScanSuccess stEmpty [] "zz" "09:00" "1/2/2026" 7).records := by
  have h := roster_fallback stEmpty [] "zz" "09:00" "1/2/2026" 7 rfl
  exact ⟨h.1, h.2.1, h.2.2.1, h.2.2.2 rfl (by simp [stEmpty])⟩

/-- C7 counterexample: header matching in `parseRosterFile` is exact, not
case-insensitive — a row whose only header is the lowercase `id` resolves
no identifier in the code (the row is dropped), while the case-insensitive
resolution the claim describes would accept it through the `ID` alias. -/
theorem rosterImport_caseInsensitive_false :
    parseRosterRows [[("id", "123")]] = [] ∧
    parseRosterRowsCI [[("id", "123")]] =
      [{ studentId := "123", name := "Unknown", «class» := "N/A" }] ∧
    parseRosterRows [[("id", "123")]] ≠ parseRosterRowsCI [[("id", "123")]] := by
  refine ⟨rfl, ?_, ?_⟩ <;> decide

/-- C7 (amended): header aliases are matched exactly (case-sensitively),
in the priority order of the source chains, skipping empty values: a row
none of whose identifier aliases resolves to a non-empty value is
dropped; a row with a resolvable identifier is kept, and its name and
class fall back to `Unknown` and `N/A` when their aliases resolve
nothing. -/
theorem rosterImport_exactAliases (row : List (String × String)) :
    ((∀ k ∈ ["studentId", "ID", "Student ID"], ∀ v, lookupRow row k = some v → v = "") →
      parseRosterRows [row] = []) ∧
    ((∃ k ∈ ["studentId", "ID", "Student ID"], ∃ v, lookupRow row k = some v ∧ v ≠ "") →
      parseRosterRows [row] = [mkProfile row] ∧ (mkProfile row).studentId ≠ "") ∧
    ((∀ k ∈ ["name", "Name", "Student Name"], ∀ v, lookupRow row k = some v → v = "") →
      (mkProfile row).name = "Unknown") ∧
    ((∀ k ∈ ["class", "Class", "grade", "Grade"], ∀ v, lookupRow row k = some v → v = "") →
      (mkProfile row).«class» = "N/A") := by
  refine ⟨?_, ?_, ?_, ?_⟩
  · intro h
    have hid : (mkProfile row).studentId = "" := jsChain_eq_default row _ "" h
    simp [parseRosterRows, List.filter, hid]
  · intro h
    have hid : (mkProfile row).studentId ≠ "" := jsChain_ne_empty row _ "" h
    refine ⟨?_, hid⟩
    simp [parseRosterRows, List.filter, hid]
  · intro h
    exact jsChain_eq_default row _ "Unknown" h
  · intro h
    exact jsChain_eq_default row _ "N/A" h

/-- Closed instance of the amended C7: a row without identifier aliases
is dropped; a `Student ID` header is kept; name falls back to Unknown. -/
theorem rosterImport_exactAliases_witness :
    parseRosterRows [[("Name", "Zed")]] = [] ∧
    parseRosterRows [[("Student ID", "123")]] = [mkProfile [("Student ID", "123")]] ∧
    (mkProfile [("Student ID", "123")]).name = "Unknown" := by
  refine ⟨?_, ?_, ?_⟩
  · refine (rosterImport_exactAliases [("Name", "Zed")]).1 ?_
    intro k hk v hv
    simp only [List.mem_cons, List.not_mem_nil, or_false] at hk
    rcases hk with rfl | rfl | rfl <;> exact Option.noConfusion hv
  · exact ((rosterImport_exactAliases [("Student ID", "123")]).2.1
      ⟨"Student ID", by simp, "123", rfl, by decide⟩).1
  · refine (rosterImport_exactAliases [("Student ID", "123")]).2.2.1 ?_
    intro k hk v hv
    simp only [List.mem_cons, List.not_mem_nil, or_false] at hk
    rcases hk with rfl | rfl | rfl <;> exact Option.noConfusion hv

/-- C8 counterexample: a record whose studentId is the empty string is
dropped by the re-import (the empty value is falsy in the alias chain),
so no roster entry preserves its identifier and name. -/
theorem exportRoundTrip_false :
    parseRosterRows (exportRows [recNoSid]) = [] ∧
    ¬ ∃ p ∈ parseRosterRows (exportRows [recNoSid]),
        p.studentId = recNoSid.studentId ∧ p.name = recNoSid.name := by
  refine ⟨?_, ?_⟩ <;> decide

/-- C8 (amended): for every record set whose records all carry a
non-empty studentId and a non-empty name, exporting to the tabular
artifact and re-importing through the roster mapping yields one roster
entry per record, preserving studentId and name character for
character. -/
theorem exportRoundTrip_preserves (records : List StudentRecord)
    (h : ∀ r ∈ records, r.studentId ≠ "" ∧ r.name ≠ "") :
    (parseRosterRows (exportRows records)).map (fun p => (p.studentId, p.name)) =
      records.map (fun r => (r.studentId, r.name)) := by
  induction records with
  | nil => rfl
  | cons r rs ih =>
    have hr := h r (List.mem_cons_self r rs)
    have hid : (mkProfile (exportRow r)).studentId = r.studentId := by
      rw [(mkProfile_exportRow r).1, if_neg hr.1]
    have hnm : (mkProfile (exportRow r)).name = r.name := by
      rw [(mkProfile_exportRow r).2, if_neg hr.2]
    have hp : (mkProfile (exportRow r)).studentId ≠ "" := by
      rw [hid]; exact hr.1
    have hstep : parseRosterRows (exportRows (r :: rs)) =
        mkProfile (exportRow r) :: parseRosterRows (exportRows rs) := by
      simp [parseRosterRows, exportRows, List.filter_cons, hp]
    rw [hstep, List.map_cons, List.map_cons, hid, hnm]
    rw [ih fun q hq => h q (List.mem_cons_of_mem r hq)]

/-- Closed instance of the amended C8: the two sample records round-trip
with identifiers and names intact. -/
theorem exportRoundTrip_preserves_witness :
    (parseRosterRows (exportRows [recA, recB])).map (fun p => (p.studentId, p.name)) =
      [recA, recB].map (fun r => (r.studentId, r.name)) :=
  exportRoundTrip_preserves [recA, recB] (by decide)

/-- C9: Summarization graceful degradation — when the external
text-generation call throws, `analyzeLateArrivals` returns the fixed
neutral fallback rather than propagating the error (the embedded function
is total, so nothing throws through to the caller); on success with an
absent or empty response text it returns the no-trends message. -/
theorem summarization_fallback (records : List StudentRecord)
    (generateContent : String → Except String (Option String)) :
    (∀ e, generateContent (analyzePrompt records) = Except.error e →
      analyzeLateArrivals records generateContent =
        "Unable to generate insights at this moment.") ∧
    (generateContent (analyzePrompt records) = Except.ok none →
      analyzeLateArrivals records generateContent =
        "No specific trends identified yet.") ∧
    (generateContent (analyzePrompt records) = Except.ok (some "") →
      analyzeLateArrivals records generateContent =
        "No specific trends identified yet.") := by
  refine ⟨?_, ?_, ?_⟩
  · intro e he
    simp [analyzeLateArrivals, he]
  · intro he
    simp [analyzeLateArrivals, he]
  · intro he
    simp [analyzeLateArrivals, he]

/-- Closed instance of C9: a throwing generator yields the fixed
fallback; a generator with no or empty response text yields the
no-trends message. -/
theorem summarization_fallback_witness :
    analyzeLateArrivals [recA] genFail = "Unable to generate insights at this moment." ∧
    analyzeLateArrivals [recA] genNoText = "No specific trends identified yet." ∧
    analyzeLateArrivals [recA] genEmptyText = "No specific trends identified yet." :=
  ⟨(summarization_fallback [recA] genFail).1 "network unavailable" rfl,
   (summarization_fallback [recA] genNoText).2.1 rfl,
   (summarization_fallback [recA] genEmptyText).2.2 rfl⟩

/-- C10: id-distinctness invariant — the record list of a station never
holds two entries with the same id: the bare inbound merge preserves
pairwise-distinct ids, and every station transition (inbound delivery,
scan with its Late append, clear, room switch including the disconnect
path that reloads the cached snapshot into the list, and mount-time
restore) preserves distinct ids in both the list and the cached
snapshot, making the property inductive for the program; and a second
scan of the same identifier in the same millisecond (which derives the
identical id) leaves the record list unchanged. -/
theorem distinctIds_invariant (st : Station) (roster : List StudentProfile)
    (prev : List StudentRecord) (m : Option StudentRecord)
    (code scannedId timeString dateString stored : String)
    (cache : Option (List StudentRecord)) (nowMs : Nat) :
    (DistinctIds prev → DistinctIds (mergeRecord prev m)) ∧
    (StationDistinct st → StationDistinct (stationMerge st m)) ∧
    (StationDistinct st →
      StationDistinct (handleScanSuccess st roster scannedId timeString dateString nowMs)) ∧
    (StationDistinct st → StationDistinct (clearRecords st)) ∧
    (StationDistinct st → StationDistinct (saveSyncCode st code)) ∧
    ((∀ l, cache = some l → DistinctIds l) → StationDistinct (mountStation stored cache)) ∧
    (handleScanSuccess (handleScanSuccess st roster scannedId timeString dateString nowMs)
        roster scannedId timeString dateString nowMs).records =
      (handleScanSuccess st roster scannedId timeString dateString nowMs).records := by
  refine ⟨mergeRecord_distinctIds prev m,
    stationMerge_stationDistinct st m,
    handleScanSuccess_stationDistinct st roster scannedId timeString dateString nowMs,
    clearRecords_stationDistinct st,
    saveSyncCode_stationDistinct st code,
    mountStation_stationDistinct stored cache, ?_⟩
  by_cases hL : (mkScanRecord roster scannedId timeString dateString nowMs).status = "Late"
  · simp only [handleScanSuccess, hL, if_true]
    exact appendIfNew_idem _ _
  · simp only [handleScanSuccess, hL, if_false]

/-- Closed instance of C10: merging a fresh record into a distinct-id
list keeps ids distinct, disconnecting a synced station (empty code, the
path that reloads the cached snapshot) preserves the station invariant,
and an immediate duplicate scan (same identifier, same millisecond) does
not change the record list. -/
theorem distinctIds_invariant_witness :
    DistinctIds (mergeRecord [recA] (some recB)) ∧
    StationDistinct (saveSyncCode stLocal "") ∧
    (handleScanSuccess (handleScanSuccess stEmpty [] "a" "09:00" "1/2/2026" 42)
        [] "a" "09:00" "1/2/2026" 42).records =
      (handleScanSuccess stEmpty [] "a" "09:00" "1/2/2026" 42).records :=
  ⟨(distinctIds_invariant stLocal [] [recA] (some recB) "" "a" "09:00" "1/2/2026" ""
      (some [recA]) 42).1 (by unfold DistinctIds; decide),
   (distinctIds_invariant stLocal [] [recA] (some recB) "" "a" "09:00" "1/2/2026" ""
      (some [recA]) 42).2.2.2.2.1
      ⟨by unfold DistinctIds; decide,
       fun l hl => (Option.some.inj hl) ▸ (by unfold DistinctIds; decide)⟩,
   (distinctIds_invariant stEmpty [] [recA] (some recB) "" "a" "09:00" "1/2/2026" ""
      (some [recA]) 42).2.2.2.2.2.2⟩
